import Mathlib

/-!
Verification of the MBI market-breadth pipeline.

This file gives a shallow embedding, in Lean 4, of the core computations of
the MBI repository and proves the specified properties about them:

* `src/processors/date_consolidator.py` — per-symbol windowed values
  (`calculate_sma`, `calculate_52week_high_low`) and the per-date
  consolidation `consolidate_date`;
* `src/processors/breadth_calculator.py` — the sixteen-metric breadth
  record (`calculate_breadth_metrics`) and the ledger upsert
  (`append_breadth_metrics`);
* `src/processors/data_validator.py` — the coverage check
  (`validate_consolidated_data`);
* `src/utils/holiday_checker.py` — the trading-calendar predicate
  (`is_trading_day`) and backward walk (`get_previous_trading_day`).

Dates are modelled as integers (days since 1970-01-01); prices as exact
rationals `ℚ` (the Python code computes in IEEE doubles; this embedding
uses the exact values, and rounding functions are modelled as the exact
decimal roundings Python's `round` performs on exactly-representable
inputs).  Pandas `sort_values` on a date-unique series is modelled by a
stable insertion sort; missing values (`NaN`) are modelled by `Option`,
with comparisons against `none` evaluating to `false`, as NaN comparisons
do in pandas.
-/

set_option maxRecDepth 100000

attribute [local semireducible] Rat.mul Rat.sub Rat.add Rat.inv Rat.ofScientific

namespace MBI

/-! ## Generic machinery: stable sorting by an integer key -/

/-- Ordering of values by an integer key, used to model pandas
`sort_values("Date")`. -/
def keyLe {α : Type} (key : α → Int) (a b : α) : Prop :=
  key a ≤ key b

instance {α : Type} (key : α → Int) : DecidableRel (keyLe key) :=
  fun a b => Int.decLe (key a) (key b)

instance {α : Type} (key : α → Int) : IsTotal α (keyLe key) :=
  ⟨fun a b => Int.le_total (key a) (key b)⟩

instance {α : Type} (key : α → Int) : IsTrans α (keyLe key) :=
  ⟨fun _ _ _ h h' => le_trans h h'⟩

/-- Stable sort by an integer key (models `DataFrame.sort_values` on a
column whose values are unique, where any sort produces the same frame). -/
def sortByKey {α : Type} (key : α → Int) (l : List α) : List α :=
  List.insertionSort (keyLe key) l

theorem sortByKey_sorted {α : Type} (key : α → Int) (l : List α) :
    List.Sorted (keyLe key) (sortByKey key l) :=
  List.sorted_insertionSort (keyLe key) l

theorem sortByKey_perm {α : Type} (key : α → Int) (l : List α) :
    (sortByKey key l).Perm l :=
  List.perm_insertionSort (keyLe key) l

/-- Two sorted lists that are permutations of one another and have
pairwise-distinct keys are equal.  This is the uniqueness of sorting a
date-unique series. -/
theorem sortUniq {α : Type} (key : α → Int) :
    ∀ (s t : List α), s.Perm t → List.Sorted (keyLe key) s →
      List.Sorted (keyLe key) t → (s.map key).Nodup → s = t := by
  intro s
  induction s with
  | nil =>
    intro t hp _ _ _
    exact (hp.symm.eq_nil).symm
  | cons a s ih =>
    intro t hp hs ht hn
    cases t with
    | nil => exact absurd hp.eq_nil (by simp)
    | cons b t =>
      have hat : a ∈ b :: t := hp.subset (List.mem_cons_self a s)
      have hbs : b ∈ a :: s := hp.symm.subset (List.mem_cons_self b t)
      have hsc := List.sorted_cons.mp hs
      have htc := List.sorted_cons.mp ht
      have hab : key a ≤ key b := by
        rcases List.mem_cons.mp hbs with h | h
        · rw [h]
        · exact hsc.1 b h
      have hba : key b ≤ key a := by
        rcases List.mem_cons.mp hat with h | h
        · rw [h]
        · exact htc.1 a h
      have hkeq : key a = key b := le_antisymm hab hba
      have hone : a = b := by
        rcases List.mem_cons.mp hbs with h | h
        · exact h.symm
        · exact List.inj_on_of_nodup_map hn (List.mem_cons_self a s)
            (List.mem_cons_of_mem a h) hkeq
      subst hone
      have htl : s = t :=
        ih t hp.cons_inv hsc.2 htc.2 (List.Nodup.of_cons hn)
      rw [htl]

/-- A list sorted by key splits as the elements satisfying a key-downward
closed predicate followed by the rest. -/
theorem sorted_filter_decomp {α : Type} (key : α → Int) (p : α → Bool)
    (hdc : ∀ a b, key a ≤ key b → p b = true → p a = true) :
    ∀ s : List α, List.Sorted (keyLe key) s →
      s = s.filter p ++ s.filter (fun x => !(p x)) := by
  intro s
  induction s with
  | nil => intro _; rfl
  | cons a s ih =>
    intro hs
    have hsc := List.sorted_cons.mp hs
    cases hpa : p a with
    | true =>
      have htl := ih hsc.2
      simp only [List.filter_cons, hpa, Bool.not_true, cond_true]
      simpa using htl
    | false =>
      have hnone : ∀ b ∈ s, ¬ p b = true := by
        intro b hb hpb
        have : p a = true := hdc a b (hsc.1 b hb) hpb
        rw [hpa] at this
        exact Bool.false_ne_true this
      have h1 : List.filter p s = [] := List.filter_eq_nil_iff.mpr hnone
      have h2 : List.filter (fun x => !(p x)) s = s := by
        apply List.filter_eq_self.mpr
        intro b hb
        cases hpb : p b with
        | true => exact absurd hpb (hnone b hb)
        | false => rfl
      simp only [List.filter_cons, hpa, Bool.not_false, cond_false, cond_true, h1, h2]
      rfl

/-- Filtering commutes with sorting when the kept elements have distinct
keys. -/
theorem filter_sortByKey {α : Type} (key : α → Int) (p : α → Bool)
    (l : List α) (hn : ((l.filter p).map key).Nodup) :
    (sortByKey key l).filter p = sortByKey key (l.filter p) := by
  apply sortUniq key
  · exact ((sortByKey_perm key l).filter p).trans (sortByKey_perm key (l.filter p)).symm
  · exact (sortByKey_sorted key l).filter p
  · exact sortByKey_sorted key (l.filter p)
  · have hperm : (((sortByKey key l).filter p).map key).Perm ((l.filter p).map key) :=
      ((sortByKey_perm key l).filter p).map key
    exact (hperm.nodup_iff).mpr hn

/-! ## Data model: bars -/

/-- One daily OHLCV bar of a per-symbol series (a row of the stock CSV:
`Date, Open, High, Low, Close, Volume`).  `opn` is the Open price (`open`
is a Lean keyword). -/
structure Bar where
  date : Int
  opn : ℚ
  hi : ℚ
  lo : ℚ
  close : ℚ
  vol : Int
  deriving DecidableEq, Repr

/-- Sort a bar series by date, as `df.sort_values("Date")` does. -/
def sortByDate (df : List Bar) : List Bar :=
  sortByKey Bar.date df

/-! ## SeriesWindow: rolling SMA (`calculate_sma`) -/

/-- Mean of the last `p` elements of the window `w` of values seen so far
(the trailing window of `rolling(window=p, min_periods=1).mean()` at the
current row). -/
def windowMean (p : Nat) (w : List ℚ) : ℚ :=
  let t := w.drop (w.length - p)
  t.sum / (t.length : ℚ)

/-- Worker for `rollingMeans`: `acc` is the list of values strictly before
the current position. -/
def rollingAux (p : Nat) (acc : List ℚ) : List ℚ → List ℚ
  | [] => []
  | x :: xs => windowMean p (acc ++ [x]) :: rollingAux p (acc ++ [x]) xs

/-- The sequence of rolling means of `xs` with window `p` and
`min_periods=1`: entry `i` is the mean of the last `min (i+1) p` values
ending at position `i`.  Models
`df["Close"].rolling(window=period, min_periods=1).mean()`. -/
def rollingMeans (p : Nat) (xs : List ℚ) : List ℚ :=
  rollingAux p [] xs

/-- The rows of `calculate_sma` for one period: each date-sorted bar paired
with its `SMA_p` value. -/
def smaColumn (p : Nat) (df : List Bar) : List (Bar × ℚ) :=
  let s := sortByDate df
  s.zip (rollingMeans p (s.map Bar.close))

/-- The `SMA_p` value at the reference-date row: the first date-sorted row
whose date equals `ref` (as `consolidate_date` reads
`df[df["Date"] == target].iloc[0][f"SMA_{period}"]`). -/
def smaAtRef (p : Nat) (df : List Bar) (ref : Int) : Option ℚ :=
  ((smaColumn p df).find? (fun br => br.1.date == ref)).map Prod.snd

/-! ## SeriesWindow: trailing 252-bar high/low (`calculate_52week_high_low`) -/

/-- Whether a bar is dated at/before the reference date (the point-in-time
filter `df["Date"] <= ref`). -/
def pLe (ref : Int) : Bar → Bool :=
  fun b => decide (b.date ≤ ref)

/-- The trailing up-to-252-bar window of the series at/before `ref`:
sort by date, keep dates `≤ ref`, take the last 252 rows (`df.tail(252)`). -/
def trailingWindow (df : List Bar) (ref : Int) : List Bar :=
  let f := (sortByDate df).filter (pLe ref)
  f.drop (f.length - 252)

/-- Max High and min Low over a window of bars; `none` on the empty window
(pandas `max`/`min` of an empty frame are NaN). -/
def highLowOfWindow : List Bar → Option (ℚ × ℚ)
  | [] => none
  | b :: bs =>
      some (bs.foldl (fun a x => max a x.hi) b.hi,
            bs.foldl (fun a x => min a x.lo) b.lo)

/-- Embedding of `calculate_52week_high_low`: max High and min Low over the
trailing window, `none` when no bar is dated at/before `ref` (the code
returns `(nan, nan)` there). -/
def calculate_52week_high_low (df : List Bar) (ref : Int) : Option (ℚ × ℚ) :=
  highLowOfWindow (trailingWindow df ref)

/-! ## Consolidator (`consolidate_date`) and Validator
(`validate_consolidated_data`) -/

/-- Configured thresholds from `src/core/config.py`. -/
def MIN_VALID_STOCKS : Nat := 350

/-- The `DAILY_CHANGE_THRESHOLD` of `config.py` (4.5 percent). -/
def DAILY_CHANGE_THRESHOLD : ℚ := 9 / 2

/-- One row of the consolidated per-date snapshot (columns
`Symbol, Open, High, Low, Close, Volume, High_52W, Low_52W, SMA_10,
SMA_20, SMA_50, SMA_200`).  The 52-week fields are `Option` because the
code stores possibly-NaN floats there. -/
structure SnapRow where
  symbol : Nat
  opn : ℚ
  hi : ℚ
  lo : ℚ
  close : ℚ
  vol : Int
  hi52 : Option ℚ
  lo52 : Option ℚ
  sma10 : ℚ
  sma20 : ℚ
  sma50 : ℚ
  sma200 : ℚ
  deriving DecidableEq, Repr

/-- Per-symbol body of the `consolidate_date` loop: load the series, skip
if absent/empty, compute the SMAs, take the first date-sorted row at
`date` (skip if none), and pair it with the 52-week high/low.  The
`getD 0` defaults are unreachable: when the row lookup succeeds, the SMA
lookup over the same sorted rows succeeds too. -/
def consolidateSymbol (load : Nat → Option (List Bar)) (date : Int)
    (s : Nat) : Option SnapRow :=
  match load s with
  | none => none
  | some df =>
    if df.isEmpty then none
    else
      match (sortByDate df).find? (fun b => b.date == date) with
      | none => none
      | some row =>
          some { symbol := s, opn := row.opn, hi := row.hi, lo := row.lo,
                 close := row.close, vol := row.vol,
                 hi52 := (calculate_52week_high_low df date).map Prod.fst,
                 lo52 := (calculate_52week_high_low df date).map Prod.snd,
                 sma10 := (smaAtRef 10 df date).getD 0,
                 sma20 := (smaAtRef 20 df date).getD 0,
                 sma50 := (smaAtRef 50 df date).getD 0,
                 sma200 := (smaAtRef 200 df date).getD 0 }

/-- Embedding of `consolidate_date`: one snapshot row per symbol of the
universe that has a bar on the target date.  Note: no coverage threshold
is applied here. -/
def consolidate_date (load : Nat → Option (List Bar)) (date : Int)
    (symbols : List Nat) : List SnapRow :=
  symbols.filterMap (consolidateSymbol load date)

/-- Embedding of `validate_consolidated_data` (its boolean verdict):
false on an empty frame, false when fewer than `MIN_VALID_STOCKS` rows
are present; the required-columns check always passes structurally. -/
def validate_consolidated_data (rows : List SnapRow) : Bool :=
  if rows.isEmpty then false
  else if rows.length < MIN_VALID_STOCKS then false
  else true

/-! ## BreadthEngine (`calculate_breadth_metrics`) -/

/-- One row of the frame consumed by `calculate_breadth_metrics`.  `sma`
gives the value of column `SMA_p` for a period `p` (meaningful only for
periods listed in the frame's `smaCols`); `prevClose` is meaningful only
when the frame's `hasPrevClose` is set. -/
structure BRow where
  opn : ℚ
  close : ℚ
  high52 : Option ℚ
  low52 : Option ℚ
  prevClose : ℚ
  sma : Nat → ℚ

/-- A consolidated frame as seen by the breadth engine: its rows plus
which optional columns (`Prev_Close`, `SMA_p`) are present. -/
structure BFrame where
  rows : List BRow
  hasPrevClose : Bool
  smaCols : List Nat

/-- Count of rows with `Close >= High_52W` (NaN compares false). -/
def countAt52wHigh (f : BFrame) : Nat :=
  f.rows.countP (fun r => match r.high52 with
    | some h => decide (h ≤ r.close)
    | none => false)

/-- Count of rows with `Close <= Low_52W` (NaN compares false). -/
def countAt52wLow (f : BFrame) : Nat :=
  f.rows.countP (fun r => match r.low52 with
    | some l => decide (r.close ≤ l)
    | none => false)

/-- The `Daily_Change_Pct` of a row: percent change of Close against the
previous close when that column is present and non-zero, else against the
Open; rows where even the fallback base is zero yield `none` (NaN). -/
def dailyChangePct (hasPrev : Bool) (r : BRow) : Option ℚ :=
  let base : Option ℚ :=
    if hasPrev then (if r.prevClose = 0 then none else some r.prevClose)
    else (if r.opn = 0 then none else some r.opn)
  match base with
  | some b => some ((r.close - b) / b * 100)
  | none => if r.opn = 0 then none else some ((r.close - r.opn) / r.opn * 100)

/-- Count of up-movers: rows with daily change above the 4.5 threshold. -/
def upCount (f : BFrame) : Nat :=
  f.rows.countP (fun r => match dailyChangePct f.hasPrevClose r with
    | some c => decide (DAILY_CHANGE_THRESHOLD < c)
    | none => false)

/-- Count of down-movers: rows with daily change below minus 4.5. -/
def downCount (f : BFrame) : Nat :=
  f.rows.countP (fun r => match dailyChangePct f.hasPrevClose r with
    | some c => decide (c < -DAILY_CHANGE_THRESHOLD)
    | none => false)

/-- Count of rows with Close strictly above `SMA_p`. -/
def aboveSmaCount (p : Nat) (f : BFrame) : Nat :=
  f.rows.countP (fun r => decide (r.sma p < r.close))

/-- Count of rows with Close strictly below `SMA_p`. -/
def belowSmaCount (p : Nat) (f : BFrame) : Nat :=
  f.rows.countP (fun r => decide (r.close < r.sma p))

/-- Round a rational to the nearest integer, ties to even — the rounding
Python's `round` performs (on values it represents exactly). -/
def halfEvenRound (q : ℚ) : Int :=
  let f := ⌊q⌋
  let r := q - (f : ℚ)
  if r < 1 / 2 then f
  else if 1 / 2 < r then f + 1
  else if f % 2 = 0 then f else f + 1

/-- Python's `round(x, 2)` on an exact value: half-even rounding to two
decimal places. -/
def round2 (q : ℚ) : ℚ :=
  (halfEvenRound (q * 100) : ℚ) / 100

/-- Round a percentage: `round((count / total) * 100, 2)`. -/
def pctOf (count total : Nat) : ℚ :=
  round2 ((count : ℚ) / (total : ℚ) * 100)

/-- The sixteen-field breadth record (one ledger row, keyed by date). -/
structure BreadthRecord where
  date : Int
  wh52 : ℚ
  wl52 : ℚ
  up45 : ℚ
  dn45 : ℚ
  p10 : ℚ
  m10 : ℚ
  p20 : ℚ
  m20 : ℚ
  p50 : ℚ
  m50 : ℚ
  p200 : ℚ
  m200 : ℚ
  r45 : ℚ
  c20 : Nat
  c50 : Nat
  deriving DecidableEq, Repr

/-- Embedding of `calculate_breadth_metrics`: `none` on an empty frame
(the code returns the empty dict `{}` there), otherwise the full record.
Missing `SMA_p` columns contribute `0.0` percentages and `0` counts. -/
def calculate_breadth_metrics (f : BFrame) (date : Int) :
    Option BreadthRecord :=
  let n := f.rows.length
  if n = 0 then none
  else
    let up := upCount f
    let dn := downCount f
    some { date := date
           wh52 := pctOf (countAt52wHigh f) n
           wl52 := pctOf (countAt52wLow f) n
           up45 := pctOf up n
           dn45 := pctOf dn n
           p10 := if 10 ∈ f.smaCols then pctOf (aboveSmaCount 10 f) n else 0
           m10 := if 10 ∈ f.smaCols then pctOf (belowSmaCount 10 f) n else 0
           p20 := if 20 ∈ f.smaCols then pctOf (aboveSmaCount 20 f) n else 0
           m20 := if 20 ∈ f.smaCols then pctOf (belowSmaCount 20 f) n else 0
           p50 := if 50 ∈ f.smaCols then pctOf (aboveSmaCount 50 f) n else 0
           m50 := if 50 ∈ f.smaCols then pctOf (belowSmaCount 50 f) n else 0
           p200 := if 200 ∈ f.smaCols then pctOf (aboveSmaCount 200 f) n else 0
           m200 := if 200 ∈ f.smaCols then pctOf (belowSmaCount 200 f) n else 0
           r45 := if 0 < dn then round2 ((up : ℚ) / (dn : ℚ))
                  else if up = 0 then 0 else 9999 / 100
           c20 := if 20 ∈ f.smaCols then aboveSmaCount 20 f else 0
           c50 := if 50 ∈ f.smaCols then aboveSmaCount 50 f else 0 }

/-! ## MetricsLedger (`append_breadth_metrics`) -/

/-- Sort ledger records ascending by date
(`df_breadth.sort_values("Date")`). -/
def sortLedger (l : List BreadthRecord) : List BreadthRecord :=
  sortByKey BreadthRecord.date l

/-- Embedding of the ledger-merge step of `append_breadth_metrics`: if no
ledger file exists yet, the new record alone; otherwise drop any existing
row for the record's date, append the new row, and sort by date. -/
def upsertLedger (ledger : Option (List BreadthRecord))
    (r : BreadthRecord) : List BreadthRecord :=
  match ledger with
  | none => [r]
  | some l => sortLedger ((l.filter (fun x => !(x.date == r.date))) ++ [r])

/-- Retrieval by date from the ledger (`get(date)`). -/
def ledgerGet (l : List BreadthRecord) (d : Int) : Option BreadthRecord :=
  l.find? (fun x => x.date == d)

/-! ## Pipeline model for the daily run (`fetch_daily_data` in
`src/main.py`)

`create_daily_consolidated_file` writes the consolidated frame for the
date (only if non-empty) and `append_breadth_metrics` reads it back,
computes the record and merges it into the ledger.  The model assumes no
consolidated file for the target date pre-exists (a fresh attempt for
that date), so an empty consolidation leaves the ledger untouched. -/

/-- Frame the breadth engine sees when reading a consolidated daily file:
all four SMA columns present, no `Prev_Close` column. -/
def snapToFrame (rows : List SnapRow) : BFrame :=
  { rows := rows.map (fun r =>
      { opn := r.opn, close := r.close, high52 := r.hi52, low52 := r.lo52,
        prevClose := 0,
        sma := fun p =>
          if p = 10 then r.sma10 else if p = 20 then r.sma20
          else if p = 50 then r.sma50 else if p = 200 then r.sma200 else 0 })
    hasPrevClose := false
    smaCols := [10, 20, 50, 200] }

/-- Net effect of `create_daily_consolidated_file` followed by
`append_breadth_metrics` on the breadth ledger. -/
def consolidate_and_append (load : Nat → Option (List Bar)) (date : Int)
    (symbols : List Nat) (ledger : Option (List BreadthRecord)) :
    Option (List BreadthRecord) :=
  let snap := consolidate_date load date symbols
  if snap.isEmpty then ledger
  else
    match calculate_breadth_metrics (snapToFrame snap) date with
    | none => ledger
    | some rec => some (upsertLedger ledger rec)

/-- Embedding of the post-calendar-check body of `fetch_daily_data`:
count the symbols whose fetch of the 3-day window around the target date
returns data; bail out if fewer than `MIN_VALID_STOCKS` succeeded;
otherwise consolidate and append.  `tradingDay` is the verdict of the
`is_trading_day` guard. -/
def fetch_daily_data (load : Nat → Option (List Bar)) (tradingDay : Bool)
    (date : Int) (symbols : List Nat)
    (ledger : Option (List BreadthRecord)) : Option (List BreadthRecord) :=
  if !tradingDay then ledger
  else
    let successCount := (symbols.filter (fun s =>
      match load s with
      | none => false
      | some df =>
          !(df.filter (fun b =>
              decide (date - 1 ≤ b.date) && decide (b.date ≤ date + 1))).isEmpty)).length
    if successCount < MIN_VALID_STOCKS then ledger
    else consolidate_and_append load date symbols ledger

/-! ## TradingCalendar (`holiday_checker.py`) -/

/-- A datetime at day granularity plus a time-of-day (seconds); the
timezone is fixed (IST), so it is not modelled. -/
structure DT where
  day : Int
  secs : Nat
  deriving DecidableEq, Repr

/-- Normalization to midnight
(`date.replace(hour=0, minute=0, second=0, microsecond=0)`). -/
def normalizeDT (t : DT) : DT :=
  { day := t.day, secs := 0 }

/-- Python's `datetime.weekday()`: Monday = 0 … Sunday = 6, computed from
the day number (1970-01-01 was a Thursday). -/
def pyWeekday (z : Int) : Int :=
  (z + 3) % 7

/-- The calendar year containing day number `z`
(Howard Hinnant's `civil_from_days`; all intermediate divisions have
non-negative operands for the shifted epoch). -/
def yearOf (z : Int) : Int :=
  let z' := z + 719468
  let era := (if 0 ≤ z' then z' else z' - 146096) / 146097
  let doe := z' - era * 146097
  let yoe := (doe - doe / 1460 + doe / 36524 - doe / 146096) / 365
  let y := yoe + era * 400
  let doy := doe - (365 * yoe + yoe / 4 - yoe / 100)
  let mp := (5 * doy + 2) / 153
  let m := mp + (if mp < 10 then 3 else -9)
  if m ≤ 2 then y + 1 else y

/-- Day number of a Gregorian calendar date
(Howard Hinnant's `days_from_civil`). -/
def daysFromCivil (y m d : Int) : Int :=
  let y' := if m ≤ 2 then y - 1 else y
  let era := (if 0 ≤ y' then y' else y' - 399) / 400
  let yoe := y' - era * 400
  let doy := (153 * (m + (if 2 < m then -3 else 9)) + 2) / 5 + d - 1
  let doe := yoe * 365 + yoe / 4 - yoe / 100 + doy
  era * 146097 + doe - 719468

/-- Embedding of `is_trading_day`, parameterized by the external holiday
supply `hol` (year ↦ holiday list; `get_nse_holidays` only sorts and
deduplicates that list, which does not affect membership): false on
Saturday/Sunday, false when the day-normalized date equals a normalized
holiday of the date's year, true otherwise. -/
def is_trading_day (hol : Int → List DT) (t : DT) : Bool :=
  if 5 ≤ pyWeekday t.day then false
  else if (hol (yearOf t.day)).any
      (fun h => normalizeDT t == normalizeDT h) then false
  else true

/-- One day earlier, keeping the time of day (`date - timedelta(days=1)`). -/
def dayBefore (t : DT) : DT :=
  { day := t.day - 1, secs := t.secs }

/-- The walk-back loop of `get_previous_trading_day`: step back one day at
a time while the current candidate is not a trading day, up to 30 extra
attempts; returns the candidate reached and the attempts used. -/
def prevAux (hol : Int → List DT) : Nat → Nat → DT → DT × Nat
  | 0, attempts, d => (d, attempts)
  | fuel + 1, attempts, d =>
      if is_trading_day hol d then (d, attempts)
      else prevAux hol fuel (attempts + 1) (dayBefore d)

/-- Embedding of `get_previous_trading_day`: start at the day before `t`;
on exhaustion of the 30-step bound the raw candidate is returned, else the
candidate normalized to midnight. -/
def get_previous_trading_day (hol : Int → List DT) (t : DT) : DT :=
  let r := prevAux hol 30 0 (dayBefore t)
  if 30 ≤ r.2 then r.1 else normalizeDT r.1

/-! ## Helper lemmas -/

theorem rollingAux_append (p : Nat) (acc xs ys : List ℚ) :
    rollingAux p acc (xs ++ ys)
      = rollingAux p acc xs ++ rollingAux p (acc ++ xs) ys := by
  induction xs generalizing acc with
  | nil => simp [rollingAux]
  | cons x xs ih =>
    simp only [List.cons_append, rollingAux, List.append_eq]
    rw [ih (acc ++ [x])]
    simp [List.append_assoc]

theorem length_rollingAux (p : Nat) (acc xs : List ℚ) :
    (rollingAux p acc xs).length = xs.length := by
  induction xs generalizing acc with
  | nil => rfl
  | cons x xs ih => simp [rollingAux, ih]

theorem foldl_max_mem {α : Type} [LinearOrder α] :
    ∀ (l : List α) (a : α), l.foldl max a = a ∨ l.foldl max a ∈ l := by
  intro l
  induction l with
  | nil => intro a; left; rfl
  | cons x t ih =>
    intro a
    rcases ih (max a x) with h | h
    · rcases max_choice a x with hm | hm
      · left; simpa [List.foldl, hm] using h
      · right; rw [List.foldl, h, hm]; exact List.mem_cons_self x t
    · right; exact List.mem_cons_of_mem x h

theorem foldl_max_le {α : Type} [LinearOrder α] :
    ∀ (l : List α) (a : α),
      a ≤ l.foldl max a ∧ ∀ x ∈ l, x ≤ l.foldl max a := by
  intro l
  induction l with
  | nil => intro a; exact ⟨le_refl a, by simp⟩
  | cons y t ih =>
    intro a
    have h := ih (max a y)
    constructor
    · exact le_trans (le_max_left a y) h.1
    · intro x hx
      rcases List.mem_cons.mp hx with hxy | hxt
      · exact le_trans (hxy ▸ le_max_right a y) h.1
      · exact h.2 x hxt

theorem foldl_min_mem {α : Type} [LinearOrder α] :
    ∀ (l : List α) (a : α), l.foldl min a = a ∨ l.foldl min a ∈ l := by
  intro l
  induction l with
  | nil => intro a; left; rfl
  | cons x t ih =>
    intro a
    rcases ih (min a x) with h | h
    · rcases min_choice a x with hm | hm
      · left; simpa [List.foldl, hm] using h
      · right; rw [List.foldl, h, hm]; exact List.mem_cons_self x t
    · right; exact List.mem_cons_of_mem x h

theorem foldl_min_le {α : Type} [LinearOrder α] :
    ∀ (l : List α) (a : α),
      l.foldl min a ≤ a ∧ ∀ x ∈ l, l.foldl min a ≤ x := by
  intro l
  induction l with
  | nil => intro a; exact ⟨le_refl a, by simp⟩
  | cons y t ih =>
    intro a
    have h := ih (min a y)
    constructor
    · exact le_trans h.1 (min_le_left a y)
    · intro x hx
      rcases List.mem_cons.mp hx with hxy | hxt
      · exact le_trans h.1 (hxy ▸ min_le_right a y)
      · exact h.2 x hxt

/-- Bars dated after the reference date never affect the
`find?`-at-reference over the zipped SMA rows: they sit at the end of the
sorted series and rolling windows only look backward. -/
theorem zipfind_append (p : Nat) (ref : Int) (F G : List Bar)
    (hG : ∀ b ∈ G, ¬(b.date ≤ ref)) :
    (((F ++ G).zip (rollingMeans p ((F ++ G).map Bar.close))).find?
        (fun br => br.1.date == ref))
      = ((F.zip (rollingMeans p (F.map Bar.close))).find?
          (fun br => br.1.date == ref)) := by
  have hlen : F.length = (rollingMeans p (F.map Bar.close)).length := by
    rw [rollingMeans, length_rollingAux, List.length_map]
  have hsplit : rollingMeans p ((F ++ G).map Bar.close)
      = rollingMeans p (F.map Bar.close)
        ++ rollingAux p (F.map Bar.close) (G.map Bar.close) := by
    rw [List.map_append, rollingMeans, rollingMeans, rollingAux_append]
    simp
  rw [hsplit, List.zip_append hlen, List.find?_append]
  have hnone : ((G.zip (rollingAux p (F.map Bar.close) (G.map Bar.close))).find?
      (fun br => br.1.date == ref)) = none := by
    apply List.find?_eq_none.mpr
    intro x hx
    have hmem := List.of_mem_zip (a := x.1) (b := x.2) (by simpa using hx)
    have hdate := hG x.1 hmem.1
    simp only [beq_iff_eq]
    intro hcontra
    exact hdate (le_of_eq hcontra)
  rw [hnone, Option.or_none]

/-- The point-in-time filter is downward closed in the date key. -/
theorem pLe_downward (ref : Int) :
    ∀ a b : Bar, a.date ≤ b.date → pLe ref b = true → pLe ref a = true := by
  intro a b hab hb
  simp only [pLe, decide_eq_true_eq] at hb ⊢
  exact le_trans hab hb

/-- Over a date-sorted series, the SMA row lookup at the reference date is
determined by the bars dated at/before the reference date. -/
theorem zipfind_filter (p : Nat) (ref : Int) (s : List Bar)
    (hs : List.Sorted (keyLe Bar.date) s) :
    ((s.zip (rollingMeans p (s.map Bar.close))).find?
        (fun br => br.1.date == ref))
      = (((s.filter (pLe ref)).zip
            (rollingMeans p ((s.filter (pLe ref)).map Bar.close))).find?
          (fun br => br.1.date == ref)) := by
  have hdecomp := sorted_filter_decomp Bar.date (pLe ref) (pLe_downward ref) s hs
  have hG : ∀ b ∈ s.filter (fun x => !(pLe ref x)), ¬(b.date ≤ ref) := by
    intro b hb
    have := (List.mem_filter.mp hb).2
    simp only [pLe, Bool.not_eq_true', decide_eq_false_iff_not] at this
    exact this
  conv_lhs => rw [hdecomp]
  exact zipfind_append p ref _ _ hG

/-- Two series with the same date-sorted point-in-time restriction have
the same SMA value at the reference-date row. -/
theorem smaAtRef_congr (p : Nat) (ref : Int) (df df' : List Bar)
    (h : (sortByDate df).filter (pLe ref) = (sortByDate df').filter (pLe ref)) :
    smaAtRef p df ref = smaAtRef p df' ref := by
  show (((sortByDate df).zip
      (rollingMeans p ((sortByDate df).map Bar.close))).find?
        (fun br => br.1.date == ref)).map Prod.snd
    = (((sortByDate df').zip
        (rollingMeans p ((sortByDate df').map Bar.close))).find?
          (fun br => br.1.date == ref)).map Prod.snd
  rw [zipfind_filter p ref (sortByDate df) (sortByKey_sorted Bar.date df),
    zipfind_filter p ref (sortByDate df') (sortByKey_sorted Bar.date df'), h]

/-- Appending bars dated strictly after the reference date does not change
the date-sorted point-in-time restriction of a date-unique series. -/
theorem filter_sort_append_future (df new : List Bar) (ref : Int)
    (hnodup : (df.map Bar.date).Nodup)
    (hnew : ∀ b ∈ new, ref < b.date) :
    (sortByDate (df ++ new)).filter (pLe ref)
      = (sortByDate df).filter (pLe ref) := by
  have hnewnil : new.filter (pLe ref) = [] := by
    apply List.filter_eq_nil_iff.mpr
    intro b hb
    simp only [pLe, decide_eq_true_eq]
    exact not_le_of_lt (hnew b hb)
  have hfeq : (df ++ new).filter (pLe ref) = df.filter (pLe ref) := by
    rw [List.filter_append, hnewnil, List.append_nil]
  have hsub : ((df.filter (pLe ref)).map Bar.date).Nodup :=
    List.Nodup.sublist (List.Sublist.map Bar.date (List.filter_sublist df)) hnodup
  show (sortByKey Bar.date (df ++ new)).filter (pLe ref)
      = (sortByKey Bar.date df).filter (pLe ref)
  rw [filter_sortByKey Bar.date (pLe ref) (df ++ new) (by rw [hfeq]; exact hsub),
    filter_sortByKey Bar.date (pLe ref) df hsub, hfeq]

/-- Sorting a concatenation whose left part is entirely at/below the right
part (with globally distinct keys) sorts the parts independently. -/
theorem sortByKey_append_of_le {α : Type} (key : α → Int) (l₁ l₂ : List α)
    (hcross : ∀ x ∈ l₁, ∀ y ∈ l₂, key x ≤ key y)
    (hn : ((l₁ ++ l₂).map key).Nodup) :
    sortByKey key (l₁ ++ l₂) = sortByKey key l₁ ++ sortByKey key l₂ := by
  apply sortUniq key
  · exact (sortByKey_perm key (l₁ ++ l₂)).trans
      ((List.Perm.append (sortByKey_perm key l₁) (sortByKey_perm key l₂)).symm)
  · exact sortByKey_sorted key (l₁ ++ l₂)
  · show List.Pairwise (keyLe key) (sortByKey key l₁ ++ sortByKey key l₂)
    apply List.pairwise_append.mpr
    refine ⟨sortByKey_sorted key l₁, sortByKey_sorted key l₂, ?_⟩
    intro x hx y hy
    exact hcross x ((sortByKey_perm key l₁).subset hx)
      y ((sortByKey_perm key l₂).subset hy)
  · exact (((sortByKey_perm key (l₁ ++ l₂)).map key).nodup_iff).mpr hn

/-! ## Claim theorems -/

/-- C1.  Point-in-time windowing: for every date-unique per-symbol series
and every reference date, the windowed values computed as of the reference
date (the 52-week high/low and every `SMA_p` taken at the reference-date
row) are unchanged by appending to the series any bars dated strictly
after the reference date. -/
theorem point_in_time_windowing (df new : List Bar) (ref : Int)
    (hnodup : (df.map Bar.date).Nodup)
    (hnew : ∀ b ∈ new, ref < b.date) :
    calculate_52week_high_low (df ++ new) ref = calculate_52week_high_low df ref
    ∧ ∀ p : Nat, smaAtRef p (df ++ new) ref = smaAtRef p df ref := by
  have hfe := filter_sort_append_future df new ref hnodup hnew
  constructor
  · have ht : trailingWindow (df ++ new) ref = trailingWindow df ref := by
      show (((sortByDate (df ++ new)).filter (pLe ref)).drop
            (((sortByDate (df ++ new)).filter (pLe ref)).length - 252))
          = (((sortByDate df).filter (pLe ref)).drop
            (((sortByDate df).filter (pLe ref)).length - 252))
      rw [hfe]
    show highLowOfWindow (trailingWindow (df ++ new) ref)
        = highLowOfWindow (trailingWindow df ref)
    rw [ht]
  · intro p
    exact smaAtRef_congr p ref (df ++ new) df hfe

/-- C1 witness: a two-bar series with a bar appended after the reference
date; both windowed values at the reference date are unchanged. -/
theorem point_in_time_windowing_witness :
    calculate_52week_high_low
        ([{ date := 0, opn := 1, hi := 10, lo := 1, close := 5, vol := 1 },
          { date := 1, opn := 1, hi := 20, lo := 2, close := 7, vol := 1 }]
          ++ [{ date := 5, opn := 1, hi := 99, lo := 0, close := 9, vol := 1 }]) 1
      = calculate_52week_high_low
          [{ date := 0, opn := 1, hi := 10, lo := 1, close := 5, vol := 1 },
           { date := 1, opn := 1, hi := 20, lo := 2, close := 7, vol := 1 }] 1
    ∧ smaAtRef 10
        ([{ date := 0, opn := 1, hi := 10, lo := 1, close := 5, vol := 1 },
          { date := 1, opn := 1, hi := 20, lo := 2, close := 7, vol := 1 }]
          ++ [{ date := 5, opn := 1, hi := 99, lo := 0, close := 9, vol := 1 }]) 1
      = smaAtRef 10
          [{ date := 0, opn := 1, hi := 10, lo := 1, close := 5, vol := 1 },
           { date := 1, opn := 1, hi := 20, lo := 2, close := 7, vol := 1 }] 1 := by
  constructor
  · exact (point_in_time_windowing _ _ 1 (by decide) (by decide)).1
  · exact (point_in_time_windowing _ _ 1 (by decide) (by decide)).2 10

/-- C5.  Trailing 52-week window: the 52-week high/low are the maximum
High and minimum Low over the trailing 252 bars (by count) dated at or
before the reference date; when no bar is dated at/before the reference
date both are "not available" (`none`, not zero); and for a date-unique
series with at least 252 bars at/before the reference date the result does
not depend on strictly older history. -/
theorem trailing_52week_window (df : List Bar) (ref : Int) :
    ((∀ b ∈ df, ¬(b.date ≤ ref)) → calculate_52week_high_low df ref = none)
    ∧ (∀ H L, calculate_52week_high_low df ref = some (H, L) →
        (H ∈ (trailingWindow df ref).map Bar.hi
          ∧ ∀ x ∈ (trailingWindow df ref).map Bar.hi, x ≤ H)
        ∧ (L ∈ (trailingWindow df ref).map Bar.lo
          ∧ ∀ x ∈ (trailingWindow df ref).map Bar.lo, L ≤ x))
    ∧ (∀ older : List Bar,
        ((older ++ df).map Bar.date).Nodup →
        252 ≤ (df.filter (pLe ref)).length →
        (∀ e ∈ older, ∀ b ∈ df, e.date < b.date) →
        calculate_52week_high_low (older ++ df) ref
          = calculate_52week_high_low df ref) := by
  refine ⟨?_, ?_, ?_⟩
  · intro hall
    have hfnil : (sortByDate df).filter (pLe ref) = [] := by
      apply List.filter_eq_nil_iff.mpr
      intro b hb
      simp only [pLe, decide_eq_true_eq]
      exact hall b ((sortByKey_perm Bar.date df).subset hb)
    have hnil : trailingWindow df ref = [] := by
      show ((sortByDate df).filter (pLe ref)).drop
          (((sortByDate df).filter (pLe ref)).length - 252) = []
      rw [hfnil]
      rfl
    show highLowOfWindow (trailingWindow df ref) = none
    rw [hnil]
    rfl
  · intro H L h
    cases hw : trailingWindow df ref with
    | nil =>
      rw [show calculate_52week_high_low df ref
          = highLowOfWindow (trailingWindow df ref) from rfl, hw] at h
      exact absurd h (by simp [highLowOfWindow])
    | cons b bs =>
      rw [show calculate_52week_high_low df ref
          = highLowOfWindow (trailingWindow df ref) from rfl, hw] at h
      have hval : highLowOfWindow (b :: bs)
          = some (bs.foldl (fun a x => max a x.hi) b.hi,
                  bs.foldl (fun a x => min a x.lo) b.lo) := rfl
      rw [hval] at h
      have hhl := (Option.some.injEq _ _).mp h
      have hH : H = bs.foldl (fun a x => max a x.hi) b.hi :=
        (congrArg Prod.fst hhl).symm
      have hL : L = bs.foldl (fun a x => min a x.lo) b.lo :=
        (congrArg Prod.snd hhl).symm
      have hHmap : H = (bs.map Bar.hi).foldl max b.hi := by
        rw [hH, List.foldl_map]
      have hLmap : L = (bs.map Bar.lo).foldl min b.lo := by
        rw [hL, List.foldl_map]
      constructor
      · constructor
        · rcases foldl_max_mem (bs.map Bar.hi) b.hi with hc | hc
          · simp [hHmap, hc]
          · rw [List.map_cons]
            exact List.mem_cons_of_mem _ (hHmap ▸ hc)
        · intro x hx
          rw [List.map_cons] at hx
          rcases List.mem_cons.mp hx with hxb | hxbs
          · exact hxb ▸ hHmap ▸ (foldl_max_le (bs.map Bar.hi) b.hi).1
          · exact hHmap ▸ (foldl_max_le (bs.map Bar.hi) b.hi).2 x hxbs
      · constructor
        · rcases foldl_min_mem (bs.map Bar.lo) b.lo with hc | hc
          · simp [hLmap, hc]
          · rw [List.map_cons]
            exact List.mem_cons_of_mem _ (hLmap ▸ hc)
        · intro x hx
          rw [List.map_cons] at hx
          rcases List.mem_cons.mp hx with hxb | hxbs
          · exact hxb ▸ hLmap ▸ (foldl_min_le (bs.map Bar.lo) b.lo).1
          · exact hLmap ▸ (foldl_min_le (bs.map Bar.lo) b.lo).2 x hxbs
  · intro older hnody h252 hord
    have hfne : df.filter (pLe ref) ≠ [] := by
      intro hC
      rw [hC] at h252
      exact absurd h252 (by simp)
    obtain ⟨b1, hb1f⟩ := List.exists_mem_of_ne_nil _ hfne
    have hb1 : b1 ∈ df := (List.mem_filter.mp hb1f).1
    have hb1le : b1.date ≤ ref := by
      have := (List.mem_filter.mp hb1f).2
      simpa [pLe] using this
    have holderle : ∀ e ∈ older, e.date ≤ ref :=
      fun e he => le_of_lt (lt_of_lt_of_le (hord e he b1 hb1) hb1le)
    have hofilter : older.filter (pLe ref) = older := by
      apply List.filter_eq_self.mpr
      intro e he
      simpa [pLe] using holderle e he
    have happ : (older ++ df).filter (pLe ref)
        = older ++ df.filter (pLe ref) := by
      rw [List.filter_append, hofilter]
    have hsubApp : (older ++ df.filter (pLe ref)).Sublist (older ++ df) :=
      List.Sublist.append_left (List.filter_sublist df) older
    have hnodF : ((older ++ df.filter (pLe ref)).map Bar.date).Nodup :=
      List.Nodup.sublist (List.Sublist.map Bar.date hsubApp) hnody
    have hnodDf : ((df.filter (pLe ref)).map Bar.date).Nodup := by
      have hsub2 : (df.filter (pLe ref)).Sublist (older ++ df) :=
        List.Sublist.trans (List.filter_sublist df) (List.sublist_append_right older df)
      exact List.Nodup.sublist (List.Sublist.map Bar.date hsub2) hnody
    have hcross : ∀ x ∈ older, ∀ y ∈ df.filter (pLe ref), x.date ≤ y.date :=
      fun x hx y hy => le_of_lt (hord x hx y (List.mem_filter.mp hy).1)
    have hsortL : (sortByDate (older ++ df)).filter (pLe ref)
        = sortByKey Bar.date older ++ sortByKey Bar.date (df.filter (pLe ref)) := by
      show (sortByKey Bar.date (older ++ df)).filter (pLe ref) = _
      rw [filter_sortByKey Bar.date (pLe ref) (older ++ df) (by rw [happ]; exact hnodF),
        happ, sortByKey_append_of_le Bar.date older (df.filter (pLe ref)) hcross hnodF]
    have hsortR : (sortByDate df).filter (pLe ref)
        = sortByKey Bar.date (df.filter (pLe ref)) := by
      show (sortByKey Bar.date df).filter (pLe ref) = _
      exact filter_sortByKey Bar.date (pLe ref) df hnodDf
    have hlenF : 252 ≤ (sortByKey Bar.date (df.filter (pLe ref))).length := by
      rw [(sortByKey_perm Bar.date (df.filter (pLe ref))).length_eq]
      exact h252
    have htw : trailingWindow (older ++ df) ref = trailingWindow df ref := by
      show ((sortByDate (older ++ df)).filter (pLe ref)).drop
            (((sortByDate (older ++ df)).filter (pLe ref)).length - 252)
          = ((sortByDate df).filter (pLe ref)).drop
            (((sortByDate df).filter (pLe ref)).length - 252)
      rw [hsortL, hsortR, List.length_append]
      have harith : (sortByKey Bar.date older).length
            + (sortByKey Bar.date (df.filter (pLe ref))).length - 252
          = (sortByKey Bar.date older).length
            + ((sortByKey Bar.date (df.filter (pLe ref))).length - 252) := by
        omega
      rw [harith, List.drop_append]
    show highLowOfWindow (trailingWindow (older ++ df) ref)
        = highLowOfWindow (trailingWindow df ref)
    rw [htw]

/-- C5 witness: a series with no bar at/before the reference date yields
`none`; with 252 bars the result ignores a strictly older bar; and the
returned pair is the max High / min Low of the trailing window. -/
theorem trailing_52week_window_witness :
    (calculate_52week_high_low
        [{ date := 0, opn := 1, hi := 10, lo := 1, close := 5, vol := 1 }] (-10) = none)
    ∧ (calculate_52week_high_low
        (([{ date := -1, opn := 1, hi := 500, lo := 1, close := 5, vol := 1 }] :
            List Bar)
          ++ (List.range 252).map (fun i =>
              { date := (i : Int), opn := 1, hi := 10, lo := 1, close := 5, vol := 1 })) 300
        = calculate_52week_high_low
          ((List.range 252).map (fun i =>
              { date := (i : Int), opn := 1, hi := 10, lo := 1, close := 5, vol := 1 })) 300)
    ∧ ((20 : ℚ) ∈ (trailingWindow
          [{ date := 0, opn := 1, hi := 10, lo := 1, close := 5, vol := 1 },
           { date := 1, opn := 1, hi := 20, lo := 2, close := 7, vol := 1 }] 1).map Bar.hi
        ∧ ∀ x ∈ (trailingWindow
            [{ date := 0, opn := 1, hi := 10, lo := 1, close := 5, vol := 1 },
             { date := 1, opn := 1, hi := 20, lo := 2, close := 7, vol := 1 }] 1).map Bar.hi,
            x ≤ (20 : ℚ)) := by
  refine ⟨?_, ?_, ?_⟩
  · exact (trailing_52week_window _ (-10)).1 (by decide)
  · exact (trailing_52week_window _ 300).2.2 _ (by decide) (by decide) (by decide)
  · exact ((trailing_52week_window _ 1).2.1 20 1 (by decide)).1

/-- When every earlier row is dated off the reference date and the last
row is dated exactly on it, the SMA row lookup lands on the last row, whose
rolling window is the whole list of closes. -/
theorem zipfind_last (p : Nat) (ref : Int) (I : List Bar) (last : Bar)
    (hI : ∀ x ∈ I, x.date ≠ ref) (hlast : last.date = ref) :
    ((((I ++ [last]).zip
        (rollingMeans p ((I ++ [last]).map Bar.close))).find?
        (fun br => br.1.date == ref)).map Prod.snd)
      = some (windowMean p ((I.map Bar.close) ++ [last.close])) := by
  have hlen : I.length = (rollingMeans p (I.map Bar.close)).length := by
    rw [rollingMeans, length_rollingAux, List.length_map]
  have hsplit : rollingMeans p ((I ++ [last]).map Bar.close)
      = rollingMeans p (I.map Bar.close)
        ++ [windowMean p ((I.map Bar.close) ++ [last.close])] := by
    rw [List.map_append, rollingMeans, rollingMeans, rollingAux_append]
    simp [rollingAux]
  rw [hsplit, List.zip_append hlen, List.find?_append]
  have hnone : ((I.zip (rollingMeans p (I.map Bar.close))).find?
      (fun br => br.1.date == ref)) = none := by
    apply List.find?_eq_none.mpr
    intro x hx
    have hmem := List.of_mem_zip (a := x.1) (b := x.2) (by simpa using hx)
    simp only [beq_iff_eq]
    exact hI x.1 hmem.1
  rw [hnone, Option.none_or]
  simp [List.find?, hlast]

/-- An SMA value exists at the reference-date row whenever the series has a
bar dated exactly on the reference date. -/
theorem smaAtRef_isSome_of_mem (p : Nat) (ref : Int) (df : List Bar)
    (b : Bar) (hb : b ∈ df) (hd : b.date = ref) :
    (smaAtRef p df ref).isSome := by
  have hbs : b ∈ sortByDate df := (sortByKey_perm Bar.date df).symm.subset hb
  obtain ⟨i, hi, hgi⟩ := List.mem_iff_getElem.mp hbs
  have hlen : (rollingMeans p ((sortByDate df).map Bar.close)).length
      = (sortByDate df).length := by
    rw [rollingMeans, length_rollingAux, List.length_map]
  have hizip : i < ((sortByDate df).zip
      (rollingMeans p ((sortByDate df).map Bar.close))).length := by
    rw [List.length_zip, hlen]
    simpa using hi
  have hfind : ((smaColumn p df).find? (fun br => br.1.date == ref)).isSome := by
    apply List.find?_isSome.mpr
    refine ⟨((sortByDate df).zip
        (rollingMeans p ((sortByDate df).map Bar.close)))[i], ?_, ?_⟩
    · exact List.getElem_mem hizip
    · have hfst : ((sortByDate df).zip
          (rollingMeans p ((sortByDate df).map Bar.close)))[i].1 = b := by
        rw [List.getElem_zip]
        exact hgi
      rw [hfst]
      simp [hd]
  show (((smaColumn p df).find? (fun br => br.1.date == ref)).map Prod.snd).isSome
  rw [Option.isSome_map']
  exact hfind

/-- C4.  Partial-window SMA: for a date-unique series of exactly `k` bars
all dated at/before the reference date with `1 ≤ k < p` and one bar dated
exactly on it, `SMA_p` at the reference-date row is the arithmetic mean of
all `k` closes; moreover an SMA value is never undefined at a
reference-date row once a bar dated on the reference date exists. -/
theorem partial_window_sma (p : Nat) (df : List Bar) (ref : Int) (k : Nat)
    (hlen : df.length = k) (hk : 1 ≤ k) (hkp : k < p)
    (hnodup : (df.map Bar.date).Nodup)
    (hle : ∀ b ∈ df, b.date ≤ ref)
    (hmem : ∃ b ∈ df, b.date = ref) :
    smaAtRef p df ref = some ((df.map Bar.close).sum / (k : ℚ))
    ∧ ∀ (df' : List Bar) (b : Bar), b ∈ df' → b.date = ref →
        (smaAtRef p df' ref).isSome := by
  constructor
  · have hsperm : (sortByDate df).Perm df := sortByKey_perm Bar.date df
    have hslen : (sortByDate df).length = k := by
      rw [hsperm.length_eq, hlen]
    have hne : sortByDate df ≠ [] := by
      intro hC
      rw [hC] at hslen
      simp at hslen
      omega
    have hsplit := List.dropLast_append_getLast hne
    have hlastmem : (sortByDate df).getLast hne ∈ df :=
      hsperm.subset (List.getLast_mem hne)
    have hlast_le : ((sortByDate df).getLast hne).date ≤ ref :=
      hle _ hlastmem
    obtain ⟨b0, hb0, hb0d⟩ := hmem
    have hb0s : b0 ∈ sortByDate df := hsperm.symm.subset hb0
    have hlastdate : ((sortByDate df).getLast hne).date = ref := by
      rw [← hsplit] at hb0s
      rcases List.mem_append.mp hb0s with hI | hlastone
      · have hsorted : List.Sorted (keyLe Bar.date) (sortByDate df) :=
          sortByKey_sorted Bar.date df
        rw [← hsplit] at hsorted
        have hpw := List.pairwise_append.mp hsorted
        have hrel := hpw.2.2 b0 hI _ (List.mem_singleton_self _)
        have : ref ≤ ((sortByDate df).getLast hne).date := hb0d ▸ hrel
        exact le_antisymm hlast_le this
      · have : b0 = (sortByDate df).getLast hne := List.mem_singleton.mp hlastone
        rw [← this, hb0d]
    have hsnodup : ((sortByDate df).map Bar.date).Nodup :=
      ((hsperm.map Bar.date).nodup_iff).mpr hnodup
    have hInot : ∀ x ∈ (sortByDate df).dropLast, x.date ≠ ref := by
      have hmapn : (((sortByDate df).dropLast
          ++ [(sortByDate df).getLast hne]).map Bar.date).Nodup := by
        rw [hsplit]
        exact hsnodup
      rw [List.map_append] at hmapn
      have hdisj := (List.nodup_append.mp hmapn).2.2
      intro x hx hC
      exact hdisj (List.mem_map_of_mem Bar.date hx)
        (by simp [hC, hlastdate.symm])
    have hcalc : smaAtRef p df ref
        = some (windowMean p (((sortByDate df).dropLast.map Bar.close)
            ++ [((sortByDate df).getLast hne).close])) := by
      show (((sortByDate df).zip
          (rollingMeans p ((sortByDate df).map Bar.close))).find?
            (fun br => br.1.date == ref)).map Prod.snd = _
      conv_lhs => rw [← hsplit]
      exact zipfind_last p ref _ _ hInot hlastdate
    rw [hcalc]
    have hweq : ((sortByDate df).dropLast.map Bar.close)
        ++ [((sortByDate df).getLast hne).close]
        = (sortByDate df).map Bar.close := by
      conv_rhs => rw [← hsplit]
      rw [List.map_append]
      rfl
    have hwlen : (((sortByDate df).dropLast.map Bar.close)
        ++ [((sortByDate df).getLast hne).close]).length = k := by
      rw [hweq, List.length_map, hslen]
    have hsum : (((sortByDate df).dropLast.map Bar.close)
        ++ [((sortByDate df).getLast hne).close]).sum
        = (df.map Bar.close).sum := by
      rw [hweq]
      exact (hsperm.map Bar.close).sum_eq
    have hdrop0 : k - p = 0 := by omega
    congr 1
    simp only [windowMean]
    rw [hwlen, hdrop0, List.drop_zero, hsum, hwlen]
  · intro df' b hb hd
    exact smaAtRef_isSome_of_mem p ref df' b hb hd

/-- C4 witness: a two-bar series with window 10 — the SMA at the
reference-date row is the mean of both closes, and the SMA row exists. -/
theorem partial_window_sma_witness :
    smaAtRef 10
        [{ date := 0, opn := 1, hi := 10, lo := 1, close := 10, vol := 1 },
         { date := 1, opn := 1, hi := 20, lo := 2, close := 20, vol := 1 }] 1
      = some (((([{ date := 0, opn := 1, hi := 10, lo := 1, close := 10, vol := 1 },
           { date := 1, opn := 1, hi := 20, lo := 2, close := 20, vol := 1 }] :
            List Bar).map Bar.close).sum) / (2 : ℚ))
    ∧ (smaAtRef 10
        [{ date := 1, opn := 1, hi := 20, lo := 2, close := 20, vol := 1 }] 1).isSome := by
  constructor
  · exact (partial_window_sma 10 _ 1 2 (by decide) (by decide) (by decide)
      (by decide) (by decide) ⟨_, List.mem_cons_of_mem _ (List.mem_singleton_self _), rfl⟩).1
  · exact (partial_window_sma 10
        [{ date := 0, opn := 1, hi := 10, lo := 1, close := 10, vol := 1 },
         { date := 1, opn := 1, hi := 20, lo := 2, close := 20, vol := 1 }] 1 2
        (by decide) (by decide) (by decide) (by decide) (by decide)
        ⟨_, List.mem_cons_of_mem _ (List.mem_singleton_self _), rfl⟩).2
      _ _ (List.mem_singleton_self _) rfl

/-- Core of the ledger idempotence argument, on a bare record list with
pairwise-distinct dates. -/
theorem upsert_list_core (l : List BreadthRecord) (r : BreadthRecord)
    (hn : (l.map BreadthRecord.date).Nodup) :
    upsertLedger (some (upsertLedger (some l) r)) r = upsertLedger (some l) r
    ∧ ledgerGet (upsertLedger (some l) r) r.date = some r
    ∧ ((upsertLedger (some l) r).map BreadthRecord.date).Nodup
    ∧ List.Sorted (keyLe BreadthRecord.date) (upsertLedger (some l) r) := by
  have hu1def : upsertLedger (some l) r
      = sortLedger ((l.filter (fun x => !(x.date == r.date))) ++ [r]) := rfl
  have hFnod : ((l.filter (fun x => !(x.date == r.date))).map
      BreadthRecord.date).Nodup :=
    List.Nodup.sublist (List.Sublist.map BreadthRecord.date
      (List.filter_sublist l)) hn
  have hFnotr : ∀ x ∈ l.filter (fun x => !(x.date == r.date)),
      x.date ≠ r.date := by
    intro x hx
    have := (List.mem_filter.mp hx).2
    simpa using this
  have hFrnod : (((l.filter (fun x => !(x.date == r.date))) ++ [r]).map
      BreadthRecord.date).Nodup := by
    rw [List.map_append]
    apply List.nodup_append.mpr
    refine ⟨hFnod, List.nodup_singleton _, ?_⟩
    intro a ha hb
    obtain ⟨x, hx, hxa⟩ := List.mem_map.mp ha
    have : a = r.date := by simpa using hb
    exact hFnotr x hx (hxa.symm ▸ this ▸ rfl)
  have hu1perm : (upsertLedger (some l) r).Perm
      ((l.filter (fun x => !(x.date == r.date))) ++ [r]) := by
    rw [hu1def]
    exact sortByKey_perm BreadthRecord.date _
  have hu1sorted : List.Sorted (keyLe BreadthRecord.date)
      (upsertLedger (some l) r) := by
    rw [hu1def]
    exact sortByKey_sorted BreadthRecord.date _
  have hu1nod : ((upsertLedger (some l) r).map BreadthRecord.date).Nodup :=
    ((hu1perm.map BreadthRecord.date).nodup_iff).mpr hFrnod
  refine ⟨?_, ?_, hu1nod, hu1sorted⟩
  · have hfilt : ((upsertLedger (some l) r).filter
        (fun x => !(x.date == r.date))).Perm
        (l.filter (fun x => !(x.date == r.date))) := by
      have h1 := hu1perm.filter (fun x => !(x.date == r.date))
      rw [List.filter_append] at h1
      have h2 : (l.filter (fun x => !(x.date == r.date))).filter
          (fun x => !(x.date == r.date))
          = l.filter (fun x => !(x.date == r.date)) := by
        apply List.filter_eq_self.mpr
        intro a ha
        exact (List.mem_filter.mp ha).2
      have h3 : ([r].filter (fun x => !(x.date == r.date))) = [] := by simp
      rw [h2, h3, List.append_nil] at h1
      exact h1
    apply sortUniq BreadthRecord.date
    · exact (sortByKey_perm BreadthRecord.date _).trans
        ((hfilt.append_right [r]).trans hu1perm.symm)
    · exact sortByKey_sorted BreadthRecord.date _
    · exact hu1sorted
    · apply ((sortByKey_perm BreadthRecord.date _).map BreadthRecord.date).nodup_iff.mpr
      apply ((hfilt.append_right [r]).map BreadthRecord.date).nodup_iff.mpr
      exact hFrnod
  · have hrmem : r ∈ upsertLedger (some l) r :=
      hu1perm.symm.subset (List.mem_append_right _ (List.mem_singleton_self r))
    have hsome : (ledgerGet (upsertLedger (some l) r) r.date).isSome := by
      apply List.find?_isSome.mpr
      exact ⟨r, hrmem, by simp⟩
    obtain ⟨x, hx⟩ := Option.isSome_iff_exists.mp hsome
    have hxmem : x ∈ upsertLedger (some l) r := List.mem_of_find?_eq_some hx
    have hxdate : x.date = r.date := by
      have := List.find?_some hx
      simpa using this
    have hxr : x = r := List.inj_on_of_nodup_map hu1nod hxmem hrmem hxdate
    rw [hx, hxr]

/-- C3.  Ledger upsert idempotence: on any date-unique ledger state (or an
absent ledger file), upserting a record twice equals upserting it once, the
record retrieved for its date is the record itself, the ledger keeps at
most one record per date, and records are sorted ascending by date. -/
theorem ledger_upsert_idempotent (ol : Option (List BreadthRecord))
    (r : BreadthRecord)
    (hn : ((ol.getD []).map BreadthRecord.date).Nodup) :
    upsertLedger (some (upsertLedger ol r)) r = upsertLedger ol r
    ∧ ledgerGet (upsertLedger ol r) r.date = some r
    ∧ ((upsertLedger ol r).map BreadthRecord.date).Nodup
    ∧ List.Sorted (keyLe BreadthRecord.date) (upsertLedger ol r) := by
  cases ol with
  | none =>
    have h1 : upsertLedger none r = [r] := rfl
    have hfilt : ([r].filter (fun x => !(x.date == r.date))) = [] := by simp
    have h2 : upsertLedger (some [r]) r = [r] := by
      show sortLedger (([r].filter (fun x => !(x.date == r.date))) ++ [r]) = [r]
      rw [hfilt]
      rfl
    rw [h1, h2]
    refine ⟨rfl, by simp [ledgerGet], by simp, List.sorted_singleton r⟩
  | some l =>
    exact upsert_list_core l r (by simpa using hn)

/-- C3 witness: upserting a record into a two-record ledger twice equals
upserting it once, and the record is retrieved back for its date. -/
theorem ledger_upsert_idempotent_witness :
    upsertLedger (some (upsertLedger
        (some [{ date := 0, wh52 := 1, wl52 := 1, up45 := 1, dn45 := 1,
                 p10 := 1, m10 := 1, p20 := 1, m20 := 1, p50 := 1, m50 := 1,
                 p200 := 1, m200 := 1, r45 := 1, c20 := 1, c50 := 1 },
               { date := 2, wh52 := 2, wl52 := 2, up45 := 2, dn45 := 2,
                 p10 := 2, m10 := 2, p20 := 2, m20 := 2, p50 := 2, m50 := 2,
                 p200 := 2, m200 := 2, r45 := 2, c20 := 2, c50 := 2 }])
        { date := 1, wh52 := 3, wl52 := 3, up45 := 3, dn45 := 3,
          p10 := 3, m10 := 3, p20 := 3, m20 := 3, p50 := 3, m50 := 3,
          p200 := 3, m200 := 3, r45 := 3, c20 := 3, c50 := 3 }))
      { date := 1, wh52 := 3, wl52 := 3, up45 := 3, dn45 := 3,
        p10 := 3, m10 := 3, p20 := 3, m20 := 3, p50 := 3, m50 := 3,
        p200 := 3, m200 := 3, r45 := 3, c20 := 3, c50 := 3 }
    = upsertLedger
        (some [{ date := 0, wh52 := 1, wl52 := 1, up45 := 1, dn45 := 1,
                 p10 := 1, m10 := 1, p20 := 1, m20 := 1, p50 := 1, m50 := 1,
                 p200 := 1, m200 := 1, r45 := 1, c20 := 1, c50 := 1 },
               { date := 2, wh52 := 2, wl52 := 2, up45 := 2, dn45 := 2,
                 p10 := 2, m10 := 2, p20 := 2, m20 := 2, p50 := 2, m50 := 2,
                 p200 := 2, m200 := 2, r45 := 2, c20 := 2, c50 := 2 }])
        { date := 1, wh52 := 3, wl52 := 3, up45 := 3, dn45 := 3,
          p10 := 3, m10 := 3, p20 := 3, m20 := 3, p50 := 3, m50 := 3,
          p200 := 3, m200 := 3, r45 := 3, c20 := 3, c50 := 3 } := by
  exact (ledger_upsert_idempotent _ _ (by decide)).1

/-- C9.  Empty-snapshot guard: the breadth computation signals the empty
snapshot (returning `none`, the empty dict, with no division performed)
exactly when the snapshot has zero rows; any non-empty snapshot produces a
record. -/
theorem empty_snapshot_guard (f : BFrame) (d : Int) :
    calculate_breadth_metrics f d = none ↔ f.rows = [] := by
  constructor
  · intro h
    by_cases hC : f.rows.length = 0
    · exact List.length_eq_zero.mp hC
    · simp only [calculate_breadth_metrics, if_neg hC] at h
      exact absurd h (by simp)
  · intro h
    simp [calculate_breadth_metrics, h]

/-- C6.  The 4.5 ratio: a non-empty snapshot always yields a record (no
error); when the down-count is positive, `4.5r` is `round(up/down, 2)`;
when both counts are zero it is `0.0`; when only the up-count is positive
it is the sentinel `99.99`. -/
theorem ratio_45_cases (f : BFrame) (d : Int) :
    (f.rows ≠ [] → (calculate_breadth_metrics f d).isSome)
    ∧ ∀ rec, calculate_breadth_metrics f d = some rec →
        (0 < downCount f →
          rec.r45 = round2 ((upCount f : ℚ) / (downCount f : ℚ)))
        ∧ (upCount f = 0 → downCount f = 0 → rec.r45 = 0)
        ∧ (0 < upCount f → downCount f = 0 → rec.r45 = 9999 / 100) := by
  constructor
  · intro hne
    have hn0 : ¬ (f.rows.length = 0) := by
      intro hC
      exact hne (List.length_eq_zero.mp hC)
    simp [calculate_breadth_metrics, hn0]
  · intro rec h
    have hn0 : ¬ (f.rows.length = 0) := by
      intro hC
      simp [calculate_breadth_metrics, hC] at h
    simp only [calculate_breadth_metrics, if_neg hn0] at h
    have hrec := (Option.some.injEq _ _).mp h
    refine ⟨?_, ?_, ?_⟩
    · intro hdn
      rw [← hrec]
      show (if 0 < downCount f then round2 ((upCount f : ℚ) / (downCount f : ℚ))
          else if upCount f = 0 then 0 else 9999 / 100)
        = round2 ((upCount f : ℚ) / (downCount f : ℚ))
      rw [if_pos hdn]
    · intro hup hdn
      rw [← hrec]
      show (if 0 < downCount f then round2 ((upCount f : ℚ) / (downCount f : ℚ))
          else if upCount f = 0 then 0 else 9999 / 100) = 0
      rw [if_neg (by omega), if_pos hup]
    · intro hup hdn
      rw [← hrec]
      show (if 0 < downCount f then round2 ((upCount f : ℚ) / (downCount f : ℚ))
          else if upCount f = 0 then 0 else 9999 / 100) = 9999 / 100
      rw [if_neg (by omega), if_neg (by omega)]

/-- Five up-movers, no down-mover (no `Prev_Close` column; change is
measured against Open). -/
def frameUp : BFrame :=
  { rows := List.replicate 5
      { opn := 100, close := 110, high52 := some 1000, low52 := some 0,
        prevClose := 0, sma := fun _ => 0 }
    hasPrevClose := false
    smaCols := [] }

/-- One flat row: no up-movers and no down-movers. -/
def frameFlat : BFrame :=
  { rows := [{ opn := 100, close := 100, high52 := some 1000, low52 := some 0,
               prevClose := 0, sma := fun _ => 0 }]
    hasPrevClose := false
    smaCols := [] }

/-- C6 witness: five up-movers and zero down-movers give the sentinel
`99.99`; zero movers in both directions give `0.0`. -/
theorem ratio_45_cases_witness :
    (calculate_breadth_metrics frameUp 0).map BreadthRecord.r45
      = some (9999 / 100)
    ∧ (calculate_breadth_metrics frameFlat 0).map BreadthRecord.r45
      = some 0 := by
  constructor
  · cases ho : calculate_breadth_metrics frameUp 0 with
    | none => exact absurd ho (by decide)
    | some rec =>
      have hr := ((ratio_45_cases frameUp 0).2 rec ho).2.2 (by decide) (by decide)
      rw [Option.map_some', hr]
  · cases ho : calculate_breadth_metrics frameFlat 0 with
    | none => exact absurd ho (by decide)
    | some rec =>
      have hr := ((ratio_45_cases frameFlat 0).2 rec ho).2.1 (by decide) (by decide)
      rw [Option.map_some', hr]

/-- C10.  Missing-SMA-column defaults: a non-empty snapshot still yields a
complete record when an `SMA_p` column is missing; the corresponding
percentage fields are `0.0` and the raw `20sma`/`50sma` counts are `0`. -/
theorem missing_sma_column_defaults (f : BFrame) (d : Int) :
    (f.rows ≠ [] → (calculate_breadth_metrics f d).isSome)
    ∧ ∀ rec, calculate_breadth_metrics f d = some rec →
        ((10 ∉ f.smaCols → rec.p10 = 0 ∧ rec.m10 = 0)
        ∧ (20 ∉ f.smaCols → rec.p20 = 0 ∧ rec.m20 = 0 ∧ rec.c20 = 0)
        ∧ (50 ∉ f.smaCols → rec.p50 = 0 ∧ rec.m50 = 0 ∧ rec.c50 = 0)
        ∧ (200 ∉ f.smaCols → rec.p200 = 0 ∧ rec.m200 = 0)) := by
  constructor
  · intro hne
    have hn0 : ¬ (f.rows.length = 0) := by
      intro hC
      exact hne (List.length_eq_zero.mp hC)
    simp [calculate_breadth_metrics, hn0]
  · intro rec h
    have hn0 : ¬ (f.rows.length = 0) := by
      intro hC
      simp [calculate_breadth_metrics, hC] at h
    simp only [calculate_breadth_metrics, if_neg hn0] at h
    have hrec := (Option.some.injEq _ _).mp h
    refine ⟨?_, ?_, ?_, ?_⟩
    · intro hno
      rw [← hrec]
      exact ⟨by show (if 10 ∈ f.smaCols then _ else 0) = 0; rw [if_neg hno],
             by show (if 10 ∈ f.smaCols then _ else 0) = 0; rw [if_neg hno]⟩
    · intro hno
      rw [← hrec]
      exact ⟨by show (if 20 ∈ f.smaCols then _ else 0) = 0; rw [if_neg hno],
             by show (if 20 ∈ f.smaCols then _ else 0) = 0; rw [if_neg hno],
             by show (if 20 ∈ f.smaCols then _ else 0) = 0; rw [if_neg hno]⟩
    · intro hno
      rw [← hrec]
      exact ⟨by show (if 50 ∈ f.smaCols then _ else 0) = 0; rw [if_neg hno],
             by show (if 50 ∈ f.smaCols then _ else 0) = 0; rw [if_neg hno],
             by show (if 50 ∈ f.smaCols then _ else 0) = 0; rw [if_neg hno]⟩
    · intro hno
      rw [← hrec]
      exact ⟨by show (if 200 ∈ f.smaCols then _ else 0) = 0; rw [if_neg hno],
             by show (if 200 ∈ f.smaCols then _ else 0) = 0; rw [if_neg hno]⟩

/-- C10 witness: a frame with no SMA columns still yields a record, with
zero SMA percentages and zero raw counts. -/
theorem missing_sma_column_defaults_witness :
    (calculate_breadth_metrics frameFlat 0).map BreadthRecord.p20 = some 0
    ∧ (calculate_breadth_metrics frameFlat 0).map BreadthRecord.c20
      = some 0 := by
  cases ho : calculate_breadth_metrics frameFlat 0 with
  | none => exact absurd ho (by decide)
  | some rec =>
    have hr := ((missing_sma_column_defaults frameFlat 0).2 rec ho).2.1
      (by decide)
    exact ⟨by rw [Option.map_some', hr.1], by rw [Option.map_some', hr.2.2]⟩

/-- The half-up rounding to two decimals that the spec asserts
(modelled from the spec's words, for comparison with the code's
`round`). -/
def halfUpRound (q : ℚ) : Int :=
  ⌊q + 1 / 2⌋

/-- Half-up rounding to two decimal places, per the spec's words. -/
def roundHalfUpTo2 (q : ℚ) : ℚ :=
  (halfUpRound (q * 100) : ℚ) / 100

/-- Thirty-two rows, exactly one of which sits at its 52-week high: the
exact `52WH` ratio is 1/32, i.e. 3.125 percent — a rounding tie at two
decimals. -/
def frameTie : BFrame :=
  { rows := List.replicate 31
      { opn := 100, close := 100, high52 := some 200, low52 := some 0,
        prevClose := 0, sma := fun _ => 0 }
      ++ [{ opn := 100, close := 100, high52 := some 50, low52 := some 0,
            prevClose := 0, sma := fun _ => 0 }]
    hasPrevClose := false
    smaCols := [] }

/-- C7 counterexample: with 1 of 32 stocks at the 52-week high, the code
reports 3.12 (Python's `round` is half-even), not the half-up 3.13 the
claim asserts. -/
theorem rounding_half_up_counterexample :
    (calculate_breadth_metrics frameTie 0).map BreadthRecord.wh52
      ≠ some (roundHalfUpTo2
          ((countAt52wHigh frameTie : ℚ) / (frameTie.rows.length : ℚ) * 100)) := by
  decide

/-- C7 (amended).  Rounding rule: every percentage field of the breadth
record is the exact ratio times 100 rounded to two decimal places with
round-half-to-even (banker's rounding, Python's `round`) — not half-up. -/
theorem percentages_half_even (f : BFrame) (d : Int) (rec : BreadthRecord)
    (h : calculate_breadth_metrics f d = some rec) :
    rec.wh52 = round2 ((countAt52wHigh f : ℚ) / (f.rows.length : ℚ) * 100)
    ∧ rec.wl52 = round2 ((countAt52wLow f : ℚ) / (f.rows.length : ℚ) * 100)
    ∧ rec.up45 = round2 ((upCount f : ℚ) / (f.rows.length : ℚ) * 100)
    ∧ rec.dn45 = round2 ((downCount f : ℚ) / (f.rows.length : ℚ) * 100)
    ∧ (10 ∈ f.smaCols →
        rec.p10 = round2 ((aboveSmaCount 10 f : ℚ) / (f.rows.length : ℚ) * 100)
        ∧ rec.m10 = round2 ((belowSmaCount 10 f : ℚ) / (f.rows.length : ℚ) * 100))
    ∧ (20 ∈ f.smaCols →
        rec.p20 = round2 ((aboveSmaCount 20 f : ℚ) / (f.rows.length : ℚ) * 100)
        ∧ rec.m20 = round2 ((belowSmaCount 20 f : ℚ) / (f.rows.length : ℚ) * 100))
    ∧ (50 ∈ f.smaCols →
        rec.p50 = round2 ((aboveSmaCount 50 f : ℚ) / (f.rows.length : ℚ) * 100)
        ∧ rec.m50 = round2 ((belowSmaCount 50 f : ℚ) / (f.rows.length : ℚ) * 100))
    ∧ (200 ∈ f.smaCols →
        rec.p200 = round2 ((aboveSmaCount 200 f : ℚ) / (f.rows.length : ℚ) * 100)
        ∧ rec.m200 = round2 ((belowSmaCount 200 f : ℚ) / (f.rows.length : ℚ) * 100)) := by
  have hn0 : ¬ (f.rows.length = 0) := by
    intro hC
    simp [calculate_breadth_metrics, hC] at h
  simp only [calculate_breadth_metrics, if_neg hn0] at h
  have hrec := (Option.some.injEq _ _).mp h
  refine ⟨?_, ?_, ?_, ?_, ?_, ?_, ?_, ?_⟩
  · rw [← hrec]; rfl
  · rw [← hrec]; rfl
  · rw [← hrec]; rfl
  · rw [← hrec]; rfl
  · intro hmem
    rw [← hrec]
    constructor
    · show (if 10 ∈ f.smaCols then pctOf (aboveSmaCount 10 f) f.rows.length
          else 0) = _
      rw [if_pos hmem]; rfl
    · show (if 10 ∈ f.smaCols then pctOf (belowSmaCount 10 f) f.rows.length
          else 0) = _
      rw [if_pos hmem]; rfl
  · intro hmem
    rw [← hrec]
    constructor
    · show (if 20 ∈ f.smaCols then pctOf (aboveSmaCount 20 f) f.rows.length
          else 0) = _
      rw [if_pos hmem]; rfl
    · show (if 20 ∈ f.smaCols then pctOf (belowSmaCount 20 f) f.rows.length
          else 0) = _
      rw [if_pos hmem]; rfl
  · intro hmem
    rw [← hrec]
    constructor
    · show (if 50 ∈ f.smaCols then pctOf (aboveSmaCount 50 f) f.rows.length
          else 0) = _
      rw [if_pos hmem]; rfl
    · show (if 50 ∈ f.smaCols then pctOf (belowSmaCount 50 f) f.rows.length
          else 0) = _
      rw [if_pos hmem]; rfl
  · intro hmem
    rw [← hrec]
    constructor
    · show (if 200 ∈ f.smaCols then pctOf (aboveSmaCount 200 f) f.rows.length
          else 0) = _
      rw [if_pos hmem]; rfl
    · show (if 200 ∈ f.smaCols then pctOf (belowSmaCount 200 f) f.rows.length
          else 0) = _
      rw [if_pos hmem]; rfl

/-- C7 witness: on the tie frame, the `52WH` percentage is the half-even
rounding of 100/32, namely 3.12. -/
theorem percentages_half_even_witness :
    (calculate_breadth_metrics frameTie 0).map BreadthRecord.wh52
      = some (312 / 100) := by
  cases ho : calculate_breadth_metrics frameTie 0 with
  | none => exact absurd ho (by decide)
  | some rec =>
    have hr := (percentages_half_even frameTie 0 rec ho).1
    rw [Option.map_some', hr]
    decide

/-- C8.  Trading-day predicate: `is_trading_day` is false exactly on
Saturdays/Sundays and on days whose day-normalized date matches a
normalized holiday of the date's year from the holiday supply; and for a
Saturday whose preceding Friday is not a holiday,
`get_previous_trading_day` returns that Friday at midnight. -/
theorem trading_day_calendar (hol : Int → List DT) (t : DT) :
    (is_trading_day hol t = false ↔
      (5 ≤ pyWeekday t.day
        ∨ ∃ hd ∈ hol (yearOf t.day), normalizeDT t = normalizeDT hd))
    ∧ (pyWeekday t.day = 5 →
        (∀ hd ∈ hol (yearOf (t.day - 1)),
          normalizeDT hd ≠ normalizeDT (dayBefore t)) →
        get_previous_trading_day hol t = { day := t.day - 1, secs := 0 }) := by
  constructor
  · by_cases hwk : 5 ≤ pyWeekday t.day
    · simp [is_trading_day, hwk]
    · by_cases hhol : (hol (yearOf t.day)).any
          (fun hd => normalizeDT t == normalizeDT hd)
      · simp only [is_trading_day, if_neg hwk, if_pos hhol]
        constructor
        · intro _
          right
          obtain ⟨hd, hmem, heq⟩ := List.any_eq_true.mp hhol
          exact ⟨hd, hmem, by simpa using heq⟩
        · intro _
          trivial
      · simp only [is_trading_day, if_neg hwk, if_neg hhol]
        constructor
        · intro h
          exact absurd h (by simp)
        · intro h
          rcases h with h | ⟨hd, hmem, heq⟩
          · exact absurd h hwk
          · exact absurd (List.any_eq_true.mpr ⟨hd, hmem, by simpa using heq⟩) hhol
  · intro hsat hfri
    have htrad : is_trading_day hol (dayBefore t) = true := by
      have hwd : ¬ (5 ≤ pyWeekday (dayBefore t).day) := by
        simp only [pyWeekday, dayBefore] at hsat ⊢
        omega
      have hany : ((hol (yearOf (dayBefore t).day)).any
          (fun hd => normalizeDT (dayBefore t) == normalizeDT hd)) = false := by
        apply List.any_eq_false.mpr
        intro hd hmem
        have := hfri hd (by simpa [dayBefore] using hmem)
        simp only [beq_iff_eq]
        exact fun hC => this hC.symm
      simp [is_trading_day, hwd, hany]
    have hloop : prevAux hol 30 0 (dayBefore t) = (dayBefore t, 0) := by
      show prevAux hol (29 + 1) 0 (dayBefore t) = (dayBefore t, 0)
      rw [prevAux, if_pos htrad]
    show (if 30 ≤ (prevAux hol 30 0 (dayBefore t)).2 then
        (prevAux hol 30 0 (dayBefore t)).1
      else normalizeDT (prevAux hol 30 0 (dayBefore t)).1)
      = { day := t.day - 1, secs := 0 }
    rw [hloop]
    rfl

/-- C8 witness: 2024-03-16 is a Saturday; with an empty holiday supply it
is not a trading day and its previous trading day is Friday 2024-03-15 at
midnight. -/
theorem trading_day_calendar_witness :
    is_trading_day (fun _ => []) { day := daysFromCivil 2024 3 16, secs := 0 }
      = false
    ∧ get_previous_trading_day (fun _ => [])
        { day := daysFromCivil 2024 3 16, secs := 0 }
      = { day := daysFromCivil 2024 3 16 - 1, secs := 0 } := by
  constructor
  · exact (trading_day_calendar (fun _ => [])
      { day := daysFromCivil 2024 3 16, secs := 0 }).1.mpr
      (Or.inl (by decide))
  · exact (trading_day_calendar (fun _ => [])
      { day := daysFromCivil 2024 3 16, secs := 0 }).2 (by decide) (by simp)

/-! ## C2: the coverage gate -/

/-- A stored per-symbol dataset where symbols `0..339` have their bar on
the target date `0` and symbols `340..399` have theirs on the previous day
`-1` (all 400 fetches succeed over the 3-day window, but only 340 symbols
have a bar on the target date itself). -/
def c2load (s : Nat) : Option (List Bar) :=
  some [{ date := if s < 340 then 0 else -1, opn := 100, hi := 110, lo := 90,
          close := 100, vol := 1000 }]

/-- C2.  Coverage gate (violated by the code): with 400 symbols of which
only 340 have a bar on the target date, `validate_consolidated_data` would
reject the snapshot (the `InsufficientCoverage` signal), but the pipeline
never invokes it: the daily run consolidates 340 rows, computes a breadth
record anyway, and changes the previously-empty ledger. -/
theorem coverage_gate_not_enforced :
    (consolidate_date c2load 0 (List.range 400)).length = 340
    ∧ validate_consolidated_data (consolidate_date c2load 0 (List.range 400))
      = false
    ∧ fetch_daily_data c2load true 0 (List.range 400) none ≠ none := by
  refine ⟨by decide, by decide, by decide⟩

end MBI
